import Mathlib

/-!
Verification development for the `pro-rag-agent` repository, centred on the
website-crawler kernel in `src/mastra/tools/crawler-tool.ts`.

The TypeScript source is shallowly embedded below:

* URLs are modelled by `URLRec` together with `parseChars` / `serializeChars`,
  an executable model of the WHATWG `URL` platform class as the crawler uses
  it (absolute `scheme://host/path#fragment` URLs; the parser lowercases the
  scheme and the host and defaults an empty path to `/`, as the platform
  parser does; ports are kept inside the `host` field and removed by the
  `hostname` accessor; internationalised hosts and exotic relative forms are
  outside the model).
* HTML documents are modelled structurally by the inductive `Html`
  (the result of `cheerio.load`): element nodes with a tag, an attribute
  list and children, plus text nodes.
* `cleanText`, `extractLinks`, `getDomain`, `crawlPages` (the traversal of
  `crawlPage` plus the sibling loop), `execute` (in-memory sink variant) and
  `crawlPagesConvex` / `executeConvex` (remote sink variant) are translated
  from the source.  The fetch performed through puppeteer and the Convex
  mutation are oracles passed in as function arguments.
* The traversal is given its sequential (atomic-task) semantics: sibling
  links are processed in discovery order, which is the order in which the
  source starts them.  Interleavings of distinct branches, and the
  same-batch duplicate race the spec documents, are outside this model.
  The begin/settle ordering of the sibling fan-out, which is a purely
  temporal matter, is modelled separately by `fanOutTrace`.
-/

/-- Whitespace as matched by the regular expression class `\s` of the host
language (the relevant ASCII characters plus the no-break space). -/
def isJsWs (c : Char) : Bool :=
  c = ' ' ∨ c = '\t' ∨ c = '\n' ∨ c = '\r' ∨ c = '\x0b' ∨ c = '\x0c' ∨ c = ' '

/-- ASCII lowercasing of one character, as the URL parser applies to scheme
and host. -/
def lowerChar (c : Char) : Char :=
  match c with
  | 'A' => 'a' | 'B' => 'b' | 'C' => 'c' | 'D' => 'd' | 'E' => 'e' | 'F' => 'f'
  | 'G' => 'g' | 'H' => 'h' | 'I' => 'i' | 'J' => 'j' | 'K' => 'k' | 'L' => 'l'
  | 'M' => 'm' | 'N' => 'n' | 'O' => 'o' | 'P' => 'p' | 'Q' => 'q' | 'R' => 'r'
  | 'S' => 's' | 'T' => 't' | 'U' => 'u' | 'V' => 'v' | 'W' => 'w' | 'X' => 'x'
  | 'Y' => 'y' | 'Z' => 'z'
  | c => c

/-- The ASCII uppercase letters, the only characters `lowerChar` moves. -/
def upperList : List Char :=
  ['A', 'B', 'C', 'D', 'E', 'F', 'G', 'H', 'I', 'J', 'K', 'L', 'M',
   'N', 'O', 'P', 'Q', 'R', 'S', 'T', 'U', 'V', 'W', 'X', 'Y', 'Z']

/-- The ASCII lowercase letters, the image of `upperList` under `lowerChar`. -/
def lowerList : List Char :=
  ['a', 'b', 'c', 'd', 'e', 'f', 'g', 'h', 'i', 'j', 'k', 'l', 'm',
   'n', 'o', 'p', 'q', 'r', 's', 't', 'u', 'v', 'w', 'x', 'y', 'z']

theorem lowerChar_of_not_mem {c : Char} (h : c ∉ upperList) :
    lowerChar c = c := by
  unfold lowerChar
  split <;> first
    | rfl
    | (exfalso; apply h; simp_all [upperList])

theorem lowerChar_cases (c : Char) :
    lowerChar c = c ∨ lowerChar c ∈ lowerList := by
  by_cases h : c ∈ upperList
  · right
    simp only [upperList, List.mem_cons, List.not_mem_nil, or_false] at h
    rcases h with rfl | rfl | rfl | rfl | rfl | rfl | rfl | rfl | rfl | rfl |
      rfl | rfl | rfl | rfl | rfl | rfl | rfl | rfl | rfl | rfl | rfl | rfl |
      rfl | rfl | rfl | rfl <;> decide
  · exact Or.inl (lowerChar_of_not_mem h)

theorem lowerChar_idem (c : Char) : lowerChar (lowerChar c) = lowerChar c := by
  rcases lowerChar_cases c with h | h
  · rw [h, h]
  · have : lowerChar c ∉ upperList := by
      simp only [lowerList, List.mem_cons, List.not_mem_nil, or_false] at h
      rcases h with h | h | h | h | h | h | h | h | h | h | h | h | h | h |
        h | h | h | h | h | h | h | h | h | h | h | h <;> rw [h] <;> decide
    exact lowerChar_of_not_mem this

/-- If lowercasing yields a character that is not a lowercase letter, the
input already was that character.  Used for the URL delimiters. -/
theorem eq_of_lowerChar_eq {c d : Char} (hd : d ∉ lowerList)
    (h : lowerChar c = d) : c = d := by
  rcases lowerChar_cases c with hc | hc
  · rw [← hc, h]
  · exact absurd (h ▸ hc) hd

/-- Characters a URL scheme may contain. -/
def isSchemeChar (c : Char) : Bool :=
  c.isAlpha ∨ c.isDigit ∨ c = '+' ∨ c = '-' ∨ c = '.'

theorem isSchemeChar_lowerChar {c : Char} (h : isSchemeChar c) :
    isSchemeChar (lowerChar c) := by
  by_cases hm : c ∈ upperList
  · simp only [upperList, List.mem_cons, List.not_mem_nil, or_false] at hm
    rcases hm with rfl | rfl | rfl | rfl | rfl | rfl | rfl | rfl | rfl | rfl |
      rfl | rfl | rfl | rfl | rfl | rfl | rfl | rfl | rfl | rfl | rfl | rfl |
      rfl | rfl | rfl | rfl <;> decide
  · rwa [lowerChar_of_not_mem hm]

/-- The first occurrence split used throughout: `splitFirst sep l` is the part
of `l` before the first `sep` together with the part after it (`none` when
`sep` does not occur).  Models `String.prototype.split` at index 0 and the
component splitting of the URL parser. -/
def splitFirst (sep : Char) : List Char → List Char × Option (List Char)
  | [] => ([], none)
  | c :: cs =>
    if c = sep then ([], some cs)
    else
      let r := splitFirst sep cs
      (c :: r.1, r.2)

theorem splitFirst_fst_not_mem (sep : Char) (l : List Char) :
    sep ∉ (splitFirst sep l).1 := by
  induction l with
  | nil => simp [splitFirst]
  | cons c cs ih =>
    by_cases h : c = sep
    · simp [splitFirst, h]
    · simp only [splitFirst, if_neg h, List.mem_cons]
      rintro (hc | hc)
      · exact h hc.symm
      · exact ih hc

theorem splitFirst_append_of_not_mem (sep : Char) {a : List Char}
    (b : List Char) (ha : sep ∉ a) :
    splitFirst sep (a ++ sep :: b) = (a, some b) := by
  induction a with
  | nil => simp [splitFirst]
  | cons c cs ih =>
    have hc : c ≠ sep := fun h => ha (h ▸ List.mem_cons_self c cs)
    have hcs : sep ∉ cs := fun h => ha (List.mem_cons_of_mem c h)
    simp [splitFirst, hc, ih hcs]

theorem splitFirst_of_not_mem (sep : Char) {l : List Char} (h : sep ∉ l) :
    splitFirst sep l = (l, none) := by
  induction l with
  | nil => simp [splitFirst]
  | cons c cs ih =>
    have hc : c ≠ sep := fun hh => h (hh ▸ List.mem_cons_self c cs)
    have hcs : sep ∉ cs := fun hh => h (List.mem_cons_of_mem c hh)
    simp [splitFirst, hc, ih hcs]

theorem splitFirst_fst_subset (sep : Char) (l : List Char) :
    ∀ c ∈ (splitFirst sep l).1, c ∈ l := by
  induction l with
  | nil => simp [splitFirst]
  | cons c cs ih =>
    by_cases h : c = sep
    · simp [splitFirst, h]
    · intro d hd
      simp [splitFirst, h] at hd
      rcases hd with hd | hd
      · simp [hd]
      · exact List.mem_cons_of_mem c (ih d hd)

theorem splitFirst_snd_subset (sep : Char) (l : List Char) {b : List Char}
    (hb : (splitFirst sep l).2 = some b) : ∀ c ∈ b, c ∈ l := by
  induction l with
  | nil => simp [splitFirst] at hb
  | cons c cs ih =>
    by_cases h : c = sep
    · simp [splitFirst, h] at hb
      subst hb
      exact fun d hd => List.mem_cons_of_mem c hd
    · simp [splitFirst, h] at hb
      exact fun d hd => List.mem_cons_of_mem c (ih hb d hd)

/-! ## The URL model

The crawler manipulates URLs exclusively through the platform `URL` class:
`new URL(url)` and `new URL(url).href` in `crawlPage`, `new URL(href,
baseUrl)` in `extractLinks`, and `new URL(url).hostname` in `getDomain`.
`URLRec` with `parseChars` / `serializeChars` is an executable model of that
class for absolute `scheme://host/path#fragment` URLs: the parser lowercases
the scheme and the host, defaults an empty path to `/`, splits the fragment
at the first `#`, and fails (returns `none`, modelling the thrown
`TypeError`) when the scheme is missing or malformed or the authority is
empty. -/

structure URLRec where
  scheme : List Char
  host : List Char
  path : List Char
  fragment : Option (List Char)
deriving Repr, DecidableEq

/-- Parse an absolute URL, modelling `new URL(s)`. -/
def parseChars (l : List Char) : Option URLRec :=
  let p1 := splitFirst '#' l
  let p2 := splitFirst ':' p1.1
  match p2.2 with
  | none => none
  | some rest =>
    match rest with
    | '/' :: '/' :: hostPath =>
      if p2.1 = [] then none
      else if ¬ (p2.1.all isSchemeChar) then none
      else
        let p3 := splitFirst '/' hostPath
        if p3.1 = [] then none
        else
          let path := match p3.2 with
            | none => ['/']
            | some rest2 => '/' :: rest2
          some ⟨p2.1.map lowerChar, p3.1.map lowerChar, path, p1.2⟩
    | _ => none

/-- Serialize a URL record, modelling the `href` accessor. -/
def serializeChars (u : URLRec) : List Char :=
  u.scheme ++ [':', '/', '/'] ++ u.host ++ u.path ++
    (match u.fragment with
     | none => []
     | some f => '#' :: f)

def parseURL (s : String) : Option URLRec :=
  parseChars s.toList

def serializeURL (u : URLRec) : String :=
  (serializeChars u).asString

/-- The shape every record produced by `parseChars` has; `serializeChars`
round-trips on exactly these records. -/
structure GoodURL (u : URLRec) : Prop where
  scheme_ne : u.scheme ≠ []
  scheme_ok : u.scheme.all isSchemeChar
  scheme_lower : u.scheme.map lowerChar = u.scheme
  host_ne : u.host ≠ []
  host_no_slash : '/' ∉ u.host
  host_no_hash : '#' ∉ u.host
  host_lower : u.host.map lowerChar = u.host
  path_shape : ∃ t, u.path = '/' :: t
  path_no_hash : '#' ∉ u.path

theorem not_mem_map_lowerChar {c : Char} (hc : c ∉ lowerList)
    {l : List Char} (h : c ∉ l) : c ∉ l.map lowerChar := by
  intro hmem
  rcases List.mem_map.1 hmem with ⟨d, hd, hdc⟩
  exact h ((eq_of_lowerChar_eq hc hdc) ▸ hd)

theorem map_lowerChar_idem (l : List Char) :
    (l.map lowerChar).map lowerChar = l.map lowerChar := by
  rw [List.map_map]
  exact List.map_congr_left fun c _ => lowerChar_idem c

theorem parseChars_good {l : List Char} {u : URLRec}
    (h : parseChars l = some u) : GoodURL u := by
  simp only [parseChars] at h
  split at h
  · exact Option.noConfusion h
  · rename_i rest hostPath heq
    split at h
    · rename_i hp hostPathHeq
      split at h
      · exact Option.noConfusion h
      · rename_i hsne
        split at h
        · exact Option.noConfusion h
        · rename_i hsok
          split at h
          · exact Option.noConfusion h
          · rename_i hhne
            rw [not_not] at hsok
            injection h with h
            subst h
            have hpreNoHash : '#' ∉ (splitFirst '#' l).1 :=
              splitFirst_fst_not_mem _ _
            have hrestSubset : ∀ c ∈ '/' :: '/' :: hostPathHeq,
                c ∈ (splitFirst '#' l).1 :=
              splitFirst_snd_subset ':' _ heq
            have hhpSubset : ∀ c ∈ hostPathHeq, c ∈ (splitFirst '#' l).1 := by
              intro c hc
              exact hrestSubset c (List.mem_cons_of_mem _ (List.mem_cons_of_mem _ hc))
            have hhostNoSlash : '/' ∉ (splitFirst '/' hostPathHeq).1 :=
              splitFirst_fst_not_mem _ _
            have hhostNoHash : '#' ∉ (splitFirst '/' hostPathHeq).1 := by
              intro hmem
              exact hpreNoHash
                (hhpSubset '#' (splitFirst_fst_subset '/' hostPathHeq '#' hmem))
            constructor
            · simp only [ne_eq, List.map_eq_nil_iff]
              exact hsne
            · rw [List.all_eq_true] at hsok ⊢
              intro c hc
              rcases List.mem_map.1 hc with ⟨d, hd, rfl⟩
              exact isSchemeChar_lowerChar (hsok d hd)
            · exact map_lowerChar_idem _
            · simp only [ne_eq, List.map_eq_nil_iff]
              exact hhne
            · exact not_mem_map_lowerChar (by decide) hhostNoSlash
            · exact not_mem_map_lowerChar (by decide) hhostNoHash
            · exact map_lowerChar_idem _
            · cases hpath : (splitFirst '/' hostPathHeq).2 with
              | none => simp only [hpath]; exact ⟨[], rfl⟩
              | some rest2 => simp only [hpath]; exact ⟨rest2, rfl⟩
            · cases hpath : (splitFirst '/' hostPathHeq).2 with
              | none => simp only [hpath]; decide
              | some rest2 =>
                simp only [hpath]
                intro hc
                rcases List.mem_cons.1 hc with hc | hc
                · exact absurd hc.symm (by decide)
                · exact hpreNoHash (hhpSubset '#'
                    (splitFirst_snd_subset '/' hostPathHeq hpath '#' hc))
    · exact Option.noConfusion h

theorem serializeChars_roundtrip {u : URLRec} (hu : GoodURL u) :
    parseChars (serializeChars u) = some u := by
  obtain ⟨t, hpath⟩ := hu.path_shape
  have hschemeNoColon : ':' ∉ u.scheme := by
    intro hc
    exact absurd (List.all_eq_true.1 hu.scheme_ok ':' hc) (by decide)
  have hschemeNoHash : '#' ∉ u.scheme := by
    intro hc
    exact absurd (List.all_eq_true.1 hu.scheme_ok '#' hc) (by decide)
  have hpreNoHash : '#' ∉ u.scheme ++ [':', '/', '/'] ++ u.host ++ u.path := by
    intro hc
    rcases List.mem_append.1 hc with hc | hc
    · rcases List.mem_append.1 hc with hc | hc
      · rcases List.mem_append.1 hc with hc | hc
        · exact hschemeNoHash hc
        · simp at hc
      · exact hu.host_no_hash hc
    · exact hu.path_no_hash hc
  have hfrag : splitFirst '#' (serializeChars u)
      = (u.scheme ++ [':', '/', '/'] ++ u.host ++ u.path, u.fragment) := by
    cases hf : u.fragment with
    | none =>
      have h1 : serializeChars u
          = u.scheme ++ [':', '/', '/'] ++ u.host ++ u.path := by
        simp [serializeChars, hf, List.append_assoc]
      rw [h1, splitFirst_of_not_mem '#' hpreNoHash]
    | some f =>
      have h1 : serializeChars u
          = (u.scheme ++ [':', '/', '/'] ++ u.host ++ u.path) ++ '#' :: f := by
        simp [serializeChars, hf, List.append_assoc]
      rw [h1, splitFirst_append_of_not_mem '#' f hpreNoHash]
  have hcolon : splitFirst ':' (u.scheme ++ [':', '/', '/'] ++ u.host ++ u.path)
      = (u.scheme, some ('/' :: '/' :: (u.host ++ u.path))) := by
    have h1 : u.scheme ++ [':', '/', '/'] ++ u.host ++ u.path
        = u.scheme ++ ':' :: ('/' :: '/' :: (u.host ++ u.path)) := by
      simp [List.append_assoc]
    rw [h1, splitFirst_append_of_not_mem ':' _ hschemeNoColon]
  have hslash : splitFirst '/' (u.host ++ u.path) = (u.host, some t) := by
    rw [hpath, splitFirst_append_of_not_mem '/' t hu.host_no_slash]
  simp only [parseChars]
  rw [hfrag]
  simp only [hcolon, hslash, hu.scheme_ne, hu.scheme_ok, hu.host_ne,
    hu.scheme_lower, hu.host_lower, not_true, not_false_iff, if_false,
    if_true, ← hpath]

/-- The `hostname` accessor of the platform URL: the host with any `:port`
suffix removed. -/
def hostnameOf (host : List Char) : List Char :=
  (splitFirst ':' host).1

/-- `String.prototype.replace` with the anchored pattern `/^www\./`. -/
def stripWww (l : List Char) : List Char :=
  if l.take 4 = ['w', 'w', 'w', '.'] then l.drop 4 else l

/-- Translation of `getDomain` (crawler-tool.ts lines 38 to 44):
`new URL(url).hostname.replace(/^www\./, '')`, returning the empty string
when the URL does not parse. -/
def getDomain (url : String) : String :=
  match parseURL url with
  | none => ""
  | some u => (stripWww (hostnameOf u.host)).asString

theorem toList_asString (l : List Char) : (List.asString l).toList = l := rfl

/-- `getDomain` is invariant under re-serialization of the parsed URL: the
value the crawl compares against `baseDomain` for the normalized URL is the
value computed from the raw URL. -/
theorem getDomain_serialize {url : String} {u : URLRec}
    (h : parseURL url = some u) : getDomain (serializeURL u) = getDomain url := by
  have hg : parseChars (serializeChars u) = some u :=
    serializeChars_roundtrip (parseChars_good h)
  unfold getDomain parseURL serializeURL
  rw [toList_asString, hg]
  unfold parseURL at h
  rw [h]

/-- `href.split('#')[0]` on strings, the fragment stripping of
`extractLinks`. -/
def stripFrag (s : String) : String :=
  ((splitFirst '#' s.toList).1).asString

theorem stripFrag_no_hash (s : String) : '#' ∉ (stripFrag s).toList := by
  unfold stripFrag
  rw [toList_asString]
  exact splitFirst_fst_not_mem '#' s.toList

/-- Stripping the fragment of a serialized good URL is serializing the URL
with its fragment dropped. -/
theorem stripFrag_serialize {u : URLRec} (hu : GoodURL u) :
    stripFrag (serializeURL u) = serializeURL { u with fragment := none } := by
  have hschemeNoHash : '#' ∉ u.scheme := by
    intro hc
    exact absurd (List.all_eq_true.1 hu.scheme_ok '#' hc) (by decide)
  have hpreNoHash : '#' ∉ u.scheme ++ [':', '/', '/'] ++ u.host ++ u.path := by
    intro hc
    rcases List.mem_append.1 hc with hc | hc
    · rcases List.mem_append.1 hc with hc | hc
      · rcases List.mem_append.1 hc with hc | hc
        · exact hschemeNoHash hc
        · simp at hc
      · exact hu.host_no_hash hc
    · exact hu.path_no_hash hc
  unfold stripFrag serializeURL
  rw [toList_asString]
  cases hf : u.fragment with
  | none =>
    have h1 : serializeChars u
        = u.scheme ++ [':', '/', '/'] ++ u.host ++ u.path := by
      simp [serializeChars, hf, List.append_assoc]
    have h2 : serializeChars { u with fragment := none }
        = u.scheme ++ [':', '/', '/'] ++ u.host ++ u.path := by
      simp [serializeChars, List.append_assoc]
    rw [h1, splitFirst_of_not_mem '#' hpreNoHash, h2]
  | some f =>
    have h1 : serializeChars u
        = (u.scheme ++ [':', '/', '/'] ++ u.host ++ u.path) ++ '#' :: f := by
      simp [serializeChars, hf, List.append_assoc]
    have h2 : serializeChars { u with fragment := none }
        = u.scheme ++ [':', '/', '/'] ++ u.host ++ u.path := by
      simp [serializeChars, List.append_assoc]
    rw [h1, splitFirst_append_of_not_mem '#' f hpreNoHash, h2]

/-! ## The HTML model and the Content Extractor

HTML documents are modelled as the parsed trees `cheerio.load` produces:
element nodes carry a tag name, an attribute list and a child list, and text
nodes carry a string.  A value of type `Html` stands for the body content of
the fetched document (for a fragment, `cheerio` wraps it in `html`/`body`
automatically, so `$(\x27body\x27)` selects the whole content). -/

inductive Html where
  | text (s : String)
  | elem (tag : String) (attrs : List (String × String)) (children : List Html)
deriving Repr

/-- The selector list removed by `cleanText` (crawler-tool.ts line 17):
`$(\x27script, style, noscript, svg, header, footer, nav\x27).remove()`. -/
def removedTags : List String :=
  ["script", "style", "noscript", "svg", "header", "footer", "nav"]

mutual

/-- One node after `.remove()` of the `removedTags` selector: `none` when the
node itself is removed, otherwise the node with the selector removed from its
subtree. -/
def pruneHtml : Html → Option Html
  | .text s => some (.text s)
  | .elem tag attrs children =>
    if tag ∈ removedTags then none
    else some (.elem tag attrs (pruneList children))

def pruneList : List Html → List Html
  | [] => []
  | h :: hs =>
    match pruneHtml h with
    | none => pruneList hs
    | some h2 => h2 :: pruneList hs

end

mutual

/-- `$(\x27body\x27).text()`: concatenation of all descendant text. -/
def textOf : Html → List Char
  | .text s => s.toList
  | .elem _ _ children => textOfList children

def textOfList : List Html → List Char
  | [] => []
  | h :: hs => textOf h ++ textOfList hs

end

mutual

/-- `text.replace(/\s\s+/g, \x27 \x27)`: each maximal run of two or more
whitespace characters becomes a single space; an isolated whitespace
character is left unchanged. -/
def collapseWs : List Char → List Char
  | [] => []
  | c :: rest =>
    match rest with
    | [] => [c]
    | d :: _ =>
      if isJsWs c ∧ isJsWs d then ' ' :: collapseAfterRun rest
      else c :: collapseWs rest

/-- Skip the remainder of a whitespace run, then continue collapsing. -/
def collapseAfterRun : List Char → List Char
  | [] => []
  | c :: rest =>
    if isJsWs c then collapseAfterRun rest
    else c :: collapseWs rest

end

/-- `String.prototype.trim`: remove leading and trailing whitespace. -/
def trimWs (l : List Char) : List Char :=
  ((l.dropWhile isJsWs).reverse.dropWhile isJsWs).reverse

/-- Translation of `cleanText` (crawler-tool.ts lines 15 to 21): remove the
boilerplate elements, take the body text, collapse whitespace runs, trim. -/
def cleanText (h : Html) : String :=
  (trimWs (collapseWs (textOfList (pruneList [h])))).asString

/-- First value bound to a key in an attribute list, modelling
`$(element).attr(\x27href\x27)`. -/
def attrLookup (key : String) : List (String × String) → Option String
  | [] => none
  | (k, v) :: rest => if k = key then some v else attrLookup key rest

mutual

/-- The href attributes of all anchor elements in document order, modelling
`$(\x27a\x27).each(...)` over the parsed document. -/
def anchorHrefs : Html → List String
  | .text _ => []
  | .elem tag attrs children =>
    (if tag = "a" then
       match attrLookup "href" attrs with
       | some href => [href]
       | none => []
     else []) ++ anchorHrefsList children

def anchorHrefsList : List Html → List String
  | [] => []
  | h :: hs => anchorHrefs h ++ anchorHrefsList hs

end

/-- Deduplication with first-occurrence order, modelling
`Array.from(new Set(links))`. -/
def dedupFirst (seen : List String) : List String → List String
  | [] => []
  | x :: xs =>
    if x ∈ seen then dedupFirst seen xs
    else x :: dedupFirst (x :: seen) xs

/-- `new URL(href, baseUrl)`: an absolute href parses on its own; a
root-relative href (leading `/`) is resolved against the base URL scheme and
host; other relative forms are outside the URL model and are treated like
malformed hrefs (skipped by `extractLinks`). -/
def resolveURL (href : String) (baseUrl : String) : Option URLRec :=
  match parseChars href.toList with
  | some u => some u
  | none =>
    match parseChars baseUrl.toList with
    | none => none
    | some b =>
      match href.toList with
      | '/' :: rest =>
        let p := splitFirst '#' ('/' :: rest)
        some ⟨b.scheme, b.host, p.1, p.2⟩
      | _ => none

/-- Translation of `extractLinks` (crawler-tool.ts lines 22 to 37): resolve
each anchor href against the base URL, keep `http`/`https` links, strip the
fragment, deduplicate. -/
def extractLinks (h : Html) (baseUrl : String) : List String :=
  dedupFirst []
    ((anchorHrefs h).filterMap fun href =>
      match resolveURL href baseUrl with
      | none => none
      | some u =>
        if u.scheme = "http".toList ∨ u.scheme = "https".toList then
          some (stripFrag (serializeURL u))
        else none)

/-! ## The Crawl Scheduler

`crawlPages` is the sequential (atomic-task) semantics of `crawlPage`
(crawler-tool.ts lines 47 to 114) together with the sibling loop (lines 96
to 105): it processes a list of sibling targets in discovery order, each
target exactly as the source processes it.  The page fetch
(`browser.newPage` + `page.goto` + `page.content`, lines 71 to 83) is the
oracle `fetch`: `Except.error msg` models a thrown navigation or timeout
error caught by the `catch` block, `Except.ok html` the rendered document.
A target whose URL does not parse makes `new URL(url).href` (line 57) throw
BEFORE the `try` block; inside the sibling loop that rejection is absorbed
by `Promise.allSettled` without touching any state, which the `none` branch
mirrors. -/

structure CrawlResult where
  url : String
  text : String
deriving Repr, DecidableEq

structure CrawlError where
  url : String
  message : String
deriving Repr, DecidableEq

structure CrawlState where
  visited : List String
  results : List CrawlResult
  errors : List CrawlError
deriving Repr, DecidableEq

def crawlPages (fetch : String → Except String Html) (baseDomain : String)
    (maxDepth : Nat) (urls : List String) (currentDepth : Nat)
    (st : CrawlState) : CrawlState :=
  match urls with
  | [] => st
  | url :: rest =>
    let st1 :=
      match parseURL url with
      | none => st
      | some u =>
        let normalizedUrl := serializeURL u
        if currentDepth > maxDepth ∨ normalizedUrl ∈ st.visited then st
        else if getDomain normalizedUrl ≠ baseDomain then st
        else
          let stV : CrawlState :=
            { st with visited := normalizedUrl :: st.visited }
          match fetch normalizedUrl with
          | .error msg =>
            { stV with errors := stV.errors ++ [⟨normalizedUrl, msg⟩] }
          | .ok html =>
            let text := cleanText html
            let stR : CrawlState :=
              if text.length > 0 then
                { stV with results := stV.results ++ [⟨normalizedUrl, text⟩] }
              else stV
            if hd : currentDepth < maxDepth then
              crawlPages fetch baseDomain maxDepth
                (extractLinks html normalizedUrl) (currentDepth + 1) stR
            else stR
    crawlPages fetch baseDomain maxDepth rest currentDepth st1
termination_by (maxDepth + 1 - currentDepth, urls.length)
decreasing_by
  · apply Prod.Lex.left
    omega
  · apply Prod.Lex.right
    simp

/-- Translation of the single-target entry point `crawlPage`. -/
def crawlPage (fetch : String → Except String Html) (baseDomain : String)
    (maxDepth : Nat) (url : String) (currentDepth : Nat)
    (st : CrawlState) : CrawlState :=
  crawlPages fetch baseDomain maxDepth [url] currentDepth st

structure CrawlSummary where
  totalPages : Nat
  totalErrors : Nat
  crawlDepth : Nat
deriving Repr, DecidableEq

structure CrawlOutput where
  results : List CrawlResult
  errors : List CrawlError
  summary : CrawlSummary
deriving Repr, DecidableEq

/-- Translation of the in-memory-sink `execute` (crawler-tool.ts lines 139
to 169).  `throw new Error(\x27Invalid start URL provided\x27)` becomes
`Except.error`. -/
def execute (fetch : String → Except String Html) (startUrl : String)
    (maxDepth : Nat) : Except String CrawlOutput :=
  let baseDomain := getDomain startUrl
  if baseDomain = "" then .error "Invalid start URL provided"
  else
    let st := crawlPages fetch baseDomain maxDepth [startUrl] 0 ⟨[], [], []⟩
    .ok ⟨st.results, st.errors,
      ⟨st.results.length, st.errors.length, maxDepth⟩⟩

/-! ## The remote-sink (Convex) variant

The second `crawlerTool` (crawler-tool.ts lines 275 to 396) stores each
page through `ctx.mutation(\x27crawled_pages:add\x27, ...)` instead of an
in-memory result list.  The mutation is the oracle `sink`; a failing
mutation throws inside the `try` block and is caught like a fetch failure,
after which the links of the page are not explored.  The final summary
reports `visited.size` as `totalPages`. -/

structure ConvexState where
  visited : List String
  errors : List CrawlError
  stored : List CrawlResult
deriving Repr, DecidableEq

def crawlPagesConvex (fetch : String → Except String Html)
    (sink : String → String → Except String Unit) (baseDomain : String)
    (maxDepth : Nat) (urls : List String) (currentDepth : Nat)
    (st : ConvexState) : ConvexState :=
  match urls with
  | [] => st
  | url :: rest =>
    let st1 :=
      match parseURL url with
      | none => st
      | some u =>
        let normalizedUrl := serializeURL u
        if currentDepth > maxDepth ∨ normalizedUrl ∈ st.visited then st
        else if getDomain normalizedUrl ≠ baseDomain then st
        else
          let stV : ConvexState :=
            { st with visited := normalizedUrl :: st.visited }
          match fetch normalizedUrl with
          | .error msg =>
            { stV with errors := stV.errors ++ [⟨normalizedUrl, msg⟩] }
          | .ok html =>
            let text := cleanText html
            match
              (if text.length > 0 then sink normalizedUrl text
               else .ok ()) with
            | .error msg =>
              { stV with errors := stV.errors ++ [⟨normalizedUrl, msg⟩] }
            | .ok _ =>
              let stR : ConvexState :=
                if text.length > 0 then
                  { stV with stored := stV.stored ++ [⟨normalizedUrl, text⟩] }
                else stV
              if hd : currentDepth < maxDepth then
                crawlPagesConvex fetch sink baseDomain maxDepth
                  (extractLinks html normalizedUrl) (currentDepth + 1) stR
              else stR
    crawlPagesConvex fetch sink baseDomain maxDepth rest currentDepth st1
termination_by (maxDepth + 1 - currentDepth, urls.length)
decreasing_by
  · apply Prod.Lex.left
    omega
  · apply Prod.Lex.right
    simp

structure ConvexOutput where
  errors : List CrawlError
  summary : CrawlSummary
deriving Repr, DecidableEq

/-- Translation of the remote-sink `execute` (crawler-tool.ts lines 364 to
396); note `totalPages: visited.size` on line 390.  The model assumes the
`CONVEX_URL` environment variable is set (`getConvexClient` would otherwise
throw before any fetch). -/
def executeConvex (fetch : String → Except String Html)
    (sink : String → String → Except String Unit) (startUrl : String)
    (maxDepth : Nat) : Except String ConvexOutput :=
  let baseDomain := getDomain startUrl
  if baseDomain = "" then .error "Invalid start URL provided"
  else
    let st := crawlPagesConvex fetch sink baseDomain maxDepth [startUrl] 0
      ⟨[], [], []⟩
    .ok ⟨st.errors, ⟨st.visited.length, st.errors.length, maxDepth⟩⟩

/-! ## The fan-out timeline

Lines 96 to 105 of the source build `crawlPromises` with
`links.map(link => crawlPage(...))` and then await the array in slices of
three with `Promise.allSettled`.  Calling an async function starts it at
once: during the synchronous `.map` every sibling task runs up to its first
suspension point, so every sibling traversal has begun before the loop
awaits anything.  `fanOutTrace n settleOrder` is the event timeline of one
such fan-out point with `n` sibling links: first the `n` begin events, in
array order, produced synchronously by the `.map`; then the settle events
in whatever order `settleOrder` the fetches complete in. -/

inductive FanEvent where
  | begun (i : Nat)
  | settled (i : Nat)
deriving Repr, DecidableEq

def fanOutTrace (n : Nat) (settleOrder : List Nat) : List FanEvent :=
  (List.range n).map FanEvent.begun ++ settleOrder.map FanEvent.settled

/-- Index of the first occurrence of an event in a timeline (the length of
the timeline when absent). -/
def eventIdx (tr : List FanEvent) (e : FanEvent) : Nat :=
  tr.findIdx (· = e)

/-- The slice loop `for (let i = 0; i < ...; i += batchSize)` with
`batchSize = 3`: successive groups of at most three promises, in order. -/
def chunk3 (l : List α) : List (List α) :=
  match l with
  | [] => []
  | a :: rest =>
    match rest with
    | [] => [[a]]
    | b :: rest2 =>
      match rest2 with
      | [] => [[a, b]]
      | c :: rest3 => [a, b, c] :: chunk3 rest3

/-- The batch index of sibling `k` under the slice loop. -/
def batchOf (k : Nat) : Nat := k / 3

/-- The ordering property claimed for the fan-out: a sibling in a later
batch begins only after every sibling of each earlier batch has settled. -/
def batchSequential (n : Nat) (tr : List FanEvent) : Prop :=
  ∀ j < n, ∀ k < n, batchOf j < batchOf k →
    eventIdx tr (.settled j) < eventIdx tr (.begun k)

instance (n : Nat) (tr : List FanEvent) : Decidable (batchSequential n tr) := by
  unfold batchSequential
  infer_instance

/-- The processing of one target of the sibling list: the body of
`crawlPage` for that target (crawler-tool.ts lines 57 to 113). -/
def crawlPage1 (fetch : String → Except String Html) (baseDomain : String)
    (maxDepth : Nat) (url : String) (currentDepth : Nat)
    (st : CrawlState) : CrawlState :=
  match parseURL url with
  | none => st
  | some u =>
    let normalizedUrl := serializeURL u
    if currentDepth > maxDepth ∨ normalizedUrl ∈ st.visited then st
    else if getDomain normalizedUrl ≠ baseDomain then st
    else
      let stV : CrawlState :=
        { st with visited := normalizedUrl :: st.visited }
      match fetch normalizedUrl with
      | .error msg =>
        { stV with errors := stV.errors ++ [⟨normalizedUrl, msg⟩] }
      | .ok html =>
        let text := cleanText html
        let stR : CrawlState :=
          if text.length > 0 then
            { stV with results := stV.results ++ [⟨normalizedUrl, text⟩] }
          else stV
        if _hd : currentDepth < maxDepth then
          crawlPages fetch baseDomain maxDepth
            (extractLinks html normalizedUrl) (currentDepth + 1) stR
        else stR

theorem crawlPages_nil (fetch : String → Except String Html)
    (baseDomain : String) (maxDepth currentDepth : Nat) (st : CrawlState) :
    crawlPages fetch baseDomain maxDepth [] currentDepth st = st := by
  rw [crawlPages]

theorem crawlPages_cons (fetch : String → Except String Html)
    (baseDomain : String) (maxDepth : Nat) (url : String) (rest : List String)
    (currentDepth : Nat) (st : CrawlState) :
    crawlPages fetch baseDomain maxDepth (url :: rest) currentDepth st =
      crawlPages fetch baseDomain maxDepth rest currentDepth
        (crawlPage1 fetch baseDomain maxDepth url currentDepth st) := by
  rw [crawlPages]
  rfl

/-- One-target processing of the remote-sink variant (crawler-tool.ts lines
285 to 342). -/
def crawlPage1Convex (fetch : String → Except String Html)
    (sink : String → String → Except String Unit) (baseDomain : String)
    (maxDepth : Nat) (url : String) (currentDepth : Nat)
    (st : ConvexState) : ConvexState :=
  match parseURL url with
  | none => st
  | some u =>
    let normalizedUrl := serializeURL u
    if currentDepth > maxDepth ∨ normalizedUrl ∈ st.visited then st
    else if getDomain normalizedUrl ≠ baseDomain then st
    else
      let stV : ConvexState :=
        { st with visited := normalizedUrl :: st.visited }
      match fetch normalizedUrl with
      | .error msg =>
        { stV with errors := stV.errors ++ [⟨normalizedUrl, msg⟩] }
      | .ok html =>
        let text := cleanText html
        match
          (if text.length > 0 then sink normalizedUrl text
           else .ok ()) with
        | .error msg =>
          { stV with errors := stV.errors ++ [⟨normalizedUrl, msg⟩] }
        | .ok _ =>
          let stR : ConvexState :=
            if text.length > 0 then
              { stV with stored := stV.stored ++ [⟨normalizedUrl, text⟩] }
            else stV
          if _hd : currentDepth < maxDepth then
            crawlPagesConvex fetch sink baseDomain maxDepth
              (extractLinks html normalizedUrl) (currentDepth + 1) stR
          else stR

theorem crawlPagesConvex_nil (fetch : String → Except String Html)
    (sink : String → String → Except String Unit) (baseDomain : String)
    (maxDepth currentDepth : Nat) (st : ConvexState) :
    crawlPagesConvex fetch sink baseDomain maxDepth [] currentDepth st = st := by
  rw [crawlPagesConvex]

theorem crawlPagesConvex_cons (fetch : String → Except String Html)
    (sink : String → String → Except String Unit) (baseDomain : String)
    (maxDepth : Nat) (url : String) (rest : List String) (currentDepth : Nat)
    (st : ConvexState) :
    crawlPagesConvex fetch sink baseDomain maxDepth (url :: rest)
        currentDepth st =
      crawlPagesConvex fetch sink baseDomain maxDepth rest currentDepth
        (crawlPage1Convex fetch sink baseDomain maxDepth url currentDepth st) := by
  rw [crawlPagesConvex]
  rfl

/-- Beyond the depth bound the scheduler commits to nothing: rule 1 of the
transition system. -/
theorem crawlPage1_high (fetch : String → Except String Html)
    (baseDomain : String) (maxDepth : Nat) (url : String)
    {currentDepth : Nat} (h : currentDepth > maxDepth) (st : CrawlState) :
    crawlPage1 fetch baseDomain maxDepth url currentDepth st = st := by
  unfold crawlPage1
  split
  · rfl
  · rw [if_pos (Or.inl h)]

theorem crawlPages_high (fetch : String → Except String Html)
    (baseDomain : String) (maxDepth : Nat) (urls : List String)
    {currentDepth : Nat} (h : currentDepth > maxDepth) (st : CrawlState) :
    crawlPages fetch baseDomain maxDepth urls currentDepth st = st := by
  induction urls generalizing st with
  | nil => exact crawlPages_nil _ _ _ _ _
  | cons url rest ih =>
    rw [crawlPages_cons, crawlPage1_high fetch baseDomain maxDepth url h st]
    exact ih st

/-- The master preservation lemma: a predicate stable under the three
atomic state transitions of the scheduler (record an error for a fresh
in-scope URL, record a page for a fresh in-scope URL, commit a fresh
in-scope URL with empty text) is an invariant of the whole traversal. -/
theorem crawlPages_preserve (fetch : String → Except String Html)
    (baseDomain : String) (maxDepth : Nat) (P : CrawlState → Prop)
    (herr : ∀ st u msg, u ∉ st.visited → getDomain u = baseDomain → P st →
      P ⟨u :: st.visited, st.results, st.errors ++ [⟨u, msg⟩]⟩)
    (hres : ∀ st u t, u ∉ st.visited → getDomain u = baseDomain → P st →
      P ⟨u :: st.visited, st.results ++ [⟨u, t⟩], st.errors⟩)
    (hvis : ∀ st u, u ∉ st.visited → getDomain u = baseDomain → P st →
      P ⟨u :: st.visited, st.results, st.errors⟩) :
    ∀ fuel currentDepth, maxDepth + 1 - currentDepth ≤ fuel →
      ∀ urls st, P st →
        P (crawlPages fetch baseDomain maxDepth urls currentDepth st) := by
  intro fuel
  induction fuel with
  | zero =>
    intro d hfd urls st hP
    rw [crawlPages_high fetch baseDomain maxDepth urls (by omega) st]
    exact hP
  | succ fuel ih =>
    intro d hfd urls st hP
    induction urls generalizing st with
    | nil =>
      rw [crawlPages_nil]
      exact hP
    | cons url rest ihr =>
      rw [crawlPages_cons]
      apply ihr
      show P (crawlPage1 fetch baseDomain maxDepth url d st)
      simp only [crawlPage1]
      split
      · exact hP
      · rename_i u hu
        split
        · exact hP
        · rename_i hskip
          split
          · exact hP
          · rename_i hdom
            have hnotmem : serializeURL u ∉ st.visited :=
              fun hmem => hskip (Or.inr hmem)
            have hdom2 : getDomain (serializeURL u) = baseDomain := by
              by_contra hne
              exact hdom hne
            split
            · exact herr st _ _ hnotmem hdom2 hP
            · rename_i html hf
              have hstR : P (if (cleanText html).length > 0 then
                  (⟨serializeURL u :: st.visited,
                    st.results ++ [⟨serializeURL u, cleanText html⟩],
                    st.errors⟩ : CrawlState)
                else ⟨serializeURL u :: st.visited, st.results, st.errors⟩) := by
                by_cases htext : (cleanText html).length > 0
                · rw [if_pos htext]
                  exact hres st _ _ hnotmem hdom2 hP
                · rw [if_neg htext]
                  exact hvis st _ hnotmem hdom2 hP
              split
              · rename_i hlt
                exact ih (d + 1) (by omega) _ _ hstR
              · exact hstR

theorem crawlPage1Convex_high (fetch : String → Except String Html)
    (sink : String → String → Except String Unit) (baseDomain : String)
    (maxDepth : Nat) (url : String) {currentDepth : Nat}
    (h : currentDepth > maxDepth) (st : ConvexState) :
    crawlPage1Convex fetch sink baseDomain maxDepth url currentDepth st = st := by
  unfold crawlPage1Convex
  split
  · rfl
  · rw [if_pos (Or.inl h)]

theorem crawlPagesConvex_high (fetch : String → Except String Html)
    (sink : String → String → Except String Unit) (baseDomain : String)
    (maxDepth : Nat) (urls : List String) {currentDepth : Nat}
    (h : currentDepth > maxDepth) (st : ConvexState) :
    crawlPagesConvex fetch sink baseDomain maxDepth urls currentDepth st = st := by
  induction urls generalizing st with
  | nil => exact crawlPagesConvex_nil _ _ _ _ _ _
  | cons url rest ih =>
    rw [crawlPagesConvex_cons,
      crawlPage1Convex_high fetch sink baseDomain maxDepth url h st]
    exact ih st

/-- Preservation lemma for the remote-sink traversal; the error transition
covers both a failed fetch and a failed store mutation. -/
theorem crawlPagesConvex_preserve (fetch : String → Except String Html)
    (sink : String → String → Except String Unit) (baseDomain : String)
    (maxDepth : Nat) (P : ConvexState → Prop)
    (herr : ∀ st u msg, u ∉ st.visited → getDomain u = baseDomain → P st →
      P ⟨u :: st.visited, st.errors ++ [⟨u, msg⟩], st.stored⟩)
    (hstore : ∀ st u t, u ∉ st.visited → getDomain u = baseDomain → P st →
      P ⟨u :: st.visited, st.errors, st.stored ++ [⟨u, t⟩]⟩)
    (hvis : ∀ st u, u ∉ st.visited → getDomain u = baseDomain → P st →
      P ⟨u :: st.visited, st.errors, st.stored⟩) :
    ∀ fuel currentDepth, maxDepth + 1 - currentDepth ≤ fuel →
      ∀ urls st, P st →
        P (crawlPagesConvex fetch sink baseDomain maxDepth urls
            currentDepth st) := by
  intro fuel
  induction fuel with
  | zero =>
    intro d hfd urls st hP
    rw [crawlPagesConvex_high fetch sink baseDomain maxDepth urls (by omega) st]
    exact hP
  | succ fuel ih =>
    intro d hfd urls st hP
    induction urls generalizing st with
    | nil =>
      rw [crawlPagesConvex_nil]
      exact hP
    | cons url rest ihr =>
      rw [crawlPagesConvex_cons]
      apply ihr
      show P (crawlPage1Convex fetch sink baseDomain maxDepth url d st)
      simp only [crawlPage1Convex]
      split
      · exact hP
      · rename_i u hu
        split
        · exact hP
        · rename_i hskip
          split
          · exact hP
          · rename_i hdom
            have hnotmem : serializeURL u ∉ st.visited :=
              fun hmem => hskip (Or.inr hmem)
            have hdom2 : getDomain (serializeURL u) = baseDomain := by
              by_contra hne
              exact hdom hne
            split
            · exact herr st _ _ hnotmem hdom2 hP
            · rename_i html hf
              split
              · exact herr st _ _ hnotmem hdom2 hP
              · rename_i uu hsink
                have hstR : P (if (cleanText html).length > 0 then
                    (⟨serializeURL u :: st.visited, st.errors,
                      st.stored ++ [⟨serializeURL u, cleanText html⟩]⟩
                     : ConvexState)
                  else ⟨serializeURL u :: st.visited, st.errors, st.stored⟩) := by
                  by_cases htext : (cleanText html).length > 0
                  · rw [if_pos htext]
                    exact hstore st _ _ hnotmem hdom2 hP
                  · rw [if_neg htext]
                    exact hvis st _ hnotmem hdom2 hP
                split
                · rename_i hlt
                  exact ih (d + 1) (by omega) _ _ hstR
                · exact hstR

/-- Rule 6 of the transition system for a fresh in-scope target: a failed
fetch appends one CrawlError and stops processing the target. -/
theorem crawlPage1_fetch_error {fetch : String → Except String Html}
    {baseDomain : String} {maxDepth : Nat} {url : String} {u : URLRec}
    {currentDepth : Nat} {st : CrawlState} {msg : String}
    (hparse : parseURL url = some u)
    (hdom : getDomain (serializeURL u) = baseDomain)
    (hmem : serializeURL u ∉ st.visited)
    (hd : ¬ currentDepth > maxDepth)
    (hf : fetch (serializeURL u) = .error msg) :
    crawlPage1 fetch baseDomain maxDepth url currentDepth st =
      ⟨serializeURL u :: st.visited, st.results,
        st.errors ++ [⟨serializeURL u, msg⟩]⟩ := by
  simp only [crawlPage1, hparse]
  rw [if_neg (by
    intro hor
    rcases hor with hor | hor
    · exact hd hor
    · exact hmem hor)]
  rw [if_neg (by
    intro hne
    exact hne hdom)]
  rw [hf]

/-- Rules 5 to 8 for a fresh in-scope target at the depth limit: the page is
recorded iff its cleaned text is non-empty and no links are followed. -/
theorem crawlPage1_fetch_ok_leaf {fetch : String → Except String Html}
    {baseDomain : String} {maxDepth : Nat} {url : String} {u : URLRec}
    {currentDepth : Nat} {st : CrawlState} {html : Html}
    (hparse : parseURL url = some u)
    (hdom : getDomain (serializeURL u) = baseDomain)
    (hmem : serializeURL u ∉ st.visited)
    (hd : ¬ currentDepth > maxDepth)
    (hf : fetch (serializeURL u) = .ok html)
    (hnd : ¬ currentDepth < maxDepth) :
    crawlPage1 fetch baseDomain maxDepth url currentDepth st =
      (if (cleanText html).length > 0 then
        (⟨serializeURL u :: st.visited,
          st.results ++ [⟨serializeURL u, cleanText html⟩], st.errors⟩
         : CrawlState)
      else ⟨serializeURL u :: st.visited, st.results, st.errors⟩) := by
  simp only [crawlPage1, hparse]
  rw [if_neg (by
    intro hor
    rcases hor with hor | hor
    · exact hd hor
    · exact hmem hor)]
  rw [if_neg (by
    intro hne
    exact hne hdom)]
  rw [hf]
  simp only [dif_neg hnd]

/-- Rules 5 to 8 for a fresh in-scope target below the depth limit: the
links extracted from the page are traversed at the next depth. -/
theorem crawlPage1_fetch_ok_deep {fetch : String → Except String Html}
    {baseDomain : String} {maxDepth : Nat} {url : String} {u : URLRec}
    {currentDepth : Nat} {st : CrawlState} {html : Html}
    (hparse : parseURL url = some u)
    (hdom : getDomain (serializeURL u) = baseDomain)
    (hmem : serializeURL u ∉ st.visited)
    (hf : fetch (serializeURL u) = .ok html)
    (hlt : currentDepth < maxDepth) :
    crawlPage1 fetch baseDomain maxDepth url currentDepth st =
      crawlPages fetch baseDomain maxDepth
        (extractLinks html (serializeURL u)) (currentDepth + 1)
        (if (cleanText html).length > 0 then
          (⟨serializeURL u :: st.visited,
            st.results ++ [⟨serializeURL u, cleanText html⟩], st.errors⟩
           : CrawlState)
        else ⟨serializeURL u :: st.visited, st.results, st.errors⟩) := by
  simp only [crawlPage1, hparse]
  rw [if_neg (by
    intro hor
    rcases hor with hor | hor
    · exact absurd hor (by omega)
    · exact hmem hor)]
  rw [if_neg (by
    intro hne
    exact hne hdom)]
  rw [hf]
  simp only [dif_pos hlt]

/-- A target whose URL does not parse leaves the state untouched: the throw
of `new URL(url)` on line 57 happens before the `try` block and the
resulting rejection is absorbed by `Promise.allSettled`. -/
theorem crawlPage1_noparse {fetch : String → Except String Html}
    {baseDomain : String} {maxDepth : Nat} {url : String}
    {currentDepth : Nat} {st : CrawlState}
    (hparse : parseURL url = none) :
    crawlPage1 fetch baseDomain maxDepth url currentDepth st = st := by
  simp only [crawlPage1, hparse]

theorem crawlPage1Convex_fetch_error {fetch : String → Except String Html}
    {sink : String → String → Except String Unit} {baseDomain : String}
    {maxDepth : Nat} {url : String} {u : URLRec} {currentDepth : Nat}
    {st : ConvexState} {msg : String}
    (hparse : parseURL url = some u)
    (hdom : getDomain (serializeURL u) = baseDomain)
    (hmem : serializeURL u ∉ st.visited)
    (hd : ¬ currentDepth > maxDepth)
    (hf : fetch (serializeURL u) = .error msg) :
    crawlPage1Convex fetch sink baseDomain maxDepth url currentDepth st =
      ⟨serializeURL u :: st.visited, st.errors ++ [⟨serializeURL u, msg⟩],
        st.stored⟩ := by
  simp only [crawlPage1Convex, hparse]
  rw [if_neg (by
    intro hor
    rcases hor with hor | hor
    · exact hd hor
    · exact hmem hor)]
  rw [if_neg (by
    intro hne
    exact hne hdom)]
  rw [hf]

theorem crawlPage1Convex_noparse {fetch : String → Except String Html}
    {sink : String → String → Except String Unit} {baseDomain : String}
    {maxDepth : Nat} {url : String} {currentDepth : Nat} {st : ConvexState}
    (hparse : parseURL url = none) :
    crawlPage1Convex fetch sink baseDomain maxDepth url currentDepth st = st := by
  simp only [crawlPage1Convex, hparse]

/-- The scenario of the spec example: the start URL parses to a valid
domain, its fetch fails.  In the in-memory variant the summary reports zero
pages and one error carrying the normalized start URL. -/
theorem execute_start_fetch_error {fetch : String → Except String Html}
    {startUrl : String} {u : URLRec} {msg : String} (maxDepth : Nat)
    (hparse : parseURL startUrl = some u)
    (hbase : getDomain startUrl ≠ "")
    (hf : fetch (serializeURL u) = .error msg) :
    execute fetch startUrl maxDepth =
      .ok ⟨[], [⟨serializeURL u, msg⟩], ⟨0, 1, maxDepth⟩⟩ := by
  unfold execute
  rw [if_neg hbase]
  rw [crawlPages_cons, crawlPage1_fetch_error hparse
    (getDomain_serialize hparse) (by simp) (by omega) hf, crawlPages_nil]
  rfl

/-- The same scenario in the remote-sink variant: the summary reports
`totalPages = 1`, because line 390 of the source reports `visited.size` and
the start URL was committed to the visited set before its fetch failed. -/
theorem executeConvex_start_fetch_error {fetch : String → Except String Html}
    {sink : String → String → Except String Unit} {startUrl : String}
    {u : URLRec} {msg : String} (maxDepth : Nat)
    (hparse : parseURL startUrl = some u)
    (hbase : getDomain startUrl ≠ "")
    (hf : fetch (serializeURL u) = .error msg) :
    executeConvex fetch sink startUrl maxDepth =
      .ok ⟨[⟨serializeURL u, msg⟩], ⟨1, 1, maxDepth⟩⟩ := by
  unfold executeConvex
  rw [if_neg hbase]
  rw [crawlPagesConvex_cons, crawlPage1Convex_fetch_error hparse
    (getDomain_serialize hparse) (by simp) (by omega) hf, crawlPagesConvex_nil]
  rfl

/-! ## Shared concrete instances for witnesses and counterexamples -/

/-- A fetch oracle in which every navigation times out. -/
def fetchTimeout : String → Except String Html := fun _ =>
  .error "Navigation timeout of 30000 ms exceeded"

/-- A sink oracle whose mutations always succeed. -/
def sinkOk : String → String → Except String Unit := fun _ _ => .ok ()

/-- The parsed form of `https://example.com/`. -/
def urlExample : URLRec :=
  ⟨"https".toList, "example.com".toList, "/".toList, none⟩

/-! ## Claim C1 -/

/-- Claim C1, as stated, is false for the remote-sink variant: with the
start URL `https://example.com/` and every fetch timing out, the remote-sink
summary reports `totalPages = 1`, not `0`, because the source (line 390)
reports `visited.size` and the start URL was committed to the visited set
before its fetch failed. -/
theorem claim_C1_counterexample :
    executeConvex fetchTimeout sinkOk "https://example.com/" 2 =
      .ok ⟨[⟨"https://example.com/",
             "Navigation timeout of 30000 ms exceeded"⟩], ⟨1, 1, 2⟩⟩ ∧
    (1 : Nat) ≠ 0 := by
  refine ⟨?_, by decide⟩
  exact executeConvex_start_fetch_error (u := urlExample) 2 (by decide)
    (by decide) rfl

/-- Claim C1 (amended): for every crawl invocation whose start URL parses
to a valid domain and whose fetch of the start URL fails, the in-memory
variant returns `totalPages = 0`, `totalErrors = 1` and the single recorded
error url equals the normalized start URL; the remote-sink variant records
the same single error with the normalized start URL, but its `totalPages`
equals 1 (the size of the visited set), not 0. -/
theorem claim_C1 {fetch : String → Except String Html}
    {sink : String → String → Except String Unit} {startUrl : String}
    {u : URLRec} {msg : String} (maxDepth : Nat)
    (hparse : parseURL startUrl = some u)
    (hbase : getDomain startUrl ≠ "")
    (hf : fetch (serializeURL u) = .error msg) :
    execute fetch startUrl maxDepth =
      .ok ⟨[], [⟨serializeURL u, msg⟩], ⟨0, 1, maxDepth⟩⟩ ∧
    executeConvex fetch sink startUrl maxDepth =
      .ok ⟨[⟨serializeURL u, msg⟩], ⟨1, 1, maxDepth⟩⟩ :=
  ⟨execute_start_fetch_error maxDepth hparse hbase hf,
   executeConvex_start_fetch_error maxDepth hparse hbase hf⟩

/-- Witness for C1 at the concrete input `https://example.com/` with a
timing-out fetch. -/
theorem claim_C1_witness :
    execute fetchTimeout "https://example.com/" 3 =
      .ok ⟨[], [⟨"https://example.com/",
                 "Navigation timeout of 30000 ms exceeded"⟩], ⟨0, 1, 3⟩⟩ ∧
    executeConvex fetchTimeout sinkOk "https://example.com/" 3 =
      .ok ⟨[⟨"https://example.com/",
             "Navigation timeout of 30000 ms exceeded"⟩], ⟨1, 1, 3⟩⟩ :=
  claim_C1 (u := urlExample) 3 (by decide) (by decide) rfl

/-! ## Claim C3 -/

/-- Claim C3, as stated, is false for the remote-sink variant: in the
timed-out start fetch scenario the summary has `totalPages + totalErrors =
2` while the visited set holds a single URL, so the claimed bound
`totalPages + totalErrors ≤ |VisitedSet|` fails. -/
theorem claim_C3_counterexample :
    executeConvex fetchTimeout sinkOk "https://example.com/" 2 =
      .ok ⟨[⟨"https://example.com/",
             "Navigation timeout of 30000 ms exceeded"⟩], ⟨1, 1, 2⟩⟩ ∧
    (crawlPagesConvex fetchTimeout sinkOk (getDomain "https://example.com/") 2
      ["https://example.com/"] 0 ⟨[], [], []⟩).visited.length = 1 ∧
    ¬ ((1 : Nat) + 1 ≤ 1) := by
  refine ⟨executeConvex_start_fetch_error (u := urlExample) 2 (by decide)
    (by decide) rfl, ?_, by decide⟩
  have hbd : getDomain "https://example.com/" = "example.com" := by decide
  rw [hbd, crawlPagesConvex_cons,
    crawlPage1Convex_fetch_error (u := urlExample) (by decide) (by decide)
      (by simp) (by omega)
      (rfl : fetchTimeout (serializeURL urlExample) =
        Except.error "Navigation timeout of 30000 ms exceeded"),
    crawlPagesConvex_nil]
  rfl

/-- Claim C3 (amended): for every completed crawl, in the in-memory variant
`summary.totalPages + summary.totalErrors ≤ |VisitedSet|`; in the
remote-sink variant `summary.totalPages` EQUALS `|VisitedSet|`, so the
claimed bound fails there whenever any error is recorded. -/
theorem claim_C3 :
    (∀ (fetch : String → Except String Html) (startUrl : String)
       (maxDepth : Nat) (out : CrawlOutput),
       execute fetch startUrl maxDepth = .ok out →
       out.summary.totalPages + out.summary.totalErrors ≤
         (crawlPages fetch (getDomain startUrl) maxDepth [startUrl] 0
           ⟨[], [], []⟩).visited.length) ∧
    (∀ (fetch : String → Except String Html)
       (sink : String → String → Except String Unit) (startUrl : String)
       (maxDepth : Nat) (out : ConvexOutput),
       executeConvex fetch sink startUrl maxDepth = .ok out →
       out.summary.totalPages =
         (crawlPagesConvex fetch sink (getDomain startUrl) maxDepth
           [startUrl] 0 ⟨[], [], []⟩).visited.length) := by
  constructor
  · intro fetch startUrl maxDepth out hout
    unfold execute at hout
    by_cases hbd : getDomain startUrl = ""
    · rw [if_pos hbd] at hout
      exact Except.noConfusion hout
    · rw [if_neg hbd] at hout
      injection hout with hout
      subst hout
      exact crawlPages_preserve fetch (getDomain startUrl) maxDepth
        (fun st => st.results.length + st.errors.length ≤ st.visited.length)
        (fun st u msg _ _ hP => by
          simp only [List.length_append, List.length_cons, List.length_nil]
          omega)
        (fun st u t _ _ hP => by
          simp only [List.length_append, List.length_cons, List.length_nil]
          omega)
        (fun st u _ _ hP => by
          simp only [List.length_cons]
          omega)
        (maxDepth + 1) 0 (by omega) [startUrl] ⟨[], [], []⟩ (by simp)
  · intro fetch sink startUrl maxDepth out hout
    unfold executeConvex at hout
    by_cases hbd : getDomain startUrl = ""
    · rw [if_pos hbd] at hout
      exact Except.noConfusion hout
    · rw [if_neg hbd] at hout
      injection hout with hout
      subst hout
      rfl

/-- Witness for C3 at a concrete crawl with a timed-out start fetch. -/
theorem claim_C3_witness :
    (0 : Nat) + 1 ≤
      (crawlPages fetchTimeout (getDomain "https://example.com/") 1
        ["https://example.com/"] 0 ⟨[], [], []⟩).visited.length ∧
    (1 : Nat) =
      (crawlPagesConvex fetchTimeout sinkOk (getDomain "https://example.com/")
        1 ["https://example.com/"] 0 ⟨[], [], []⟩).visited.length := by
  constructor
  · exact claim_C3.1 fetchTimeout "https://example.com/" 1
      ⟨[], [⟨"https://example.com/",
             "Navigation timeout of 30000 ms exceeded"⟩], ⟨0, 1, 1⟩⟩
      (execute_start_fetch_error (u := urlExample) 1 (by decide) (by decide)
        rfl)
  · exact claim_C3.2 fetchTimeout sinkOk "https://example.com/" 1
      ⟨[⟨"https://example.com/",
         "Navigation timeout of 30000 ms exceeded"⟩], ⟨1, 1, 1⟩⟩
      (executeConvex_start_fetch_error (u := urlExample) 1 (by decide)
        (by decide) rfl)

/-! ## Claim C10 -/

/-- Claim C10: in both variants, every returned summary carries
`crawlDepth = maxDepth`, the caller-supplied input, regardless of how deep
the traversal actually went (lines 166 and 392 of the source copy the input
into the summary). -/
theorem claim_C10 :
    (∀ (fetch : String → Except String Html) (startUrl : String)
       (maxDepth : Nat) (out : CrawlOutput),
       execute fetch startUrl maxDepth = .ok out →
       out.summary.crawlDepth = maxDepth) ∧
    (∀ (fetch : String → Except String Html)
       (sink : String → String → Except String Unit) (startUrl : String)
       (maxDepth : Nat) (out : ConvexOutput),
       executeConvex fetch sink startUrl maxDepth = .ok out →
       out.summary.crawlDepth = maxDepth) := by
  constructor
  · intro fetch startUrl maxDepth out hout
    unfold execute at hout
    by_cases hbd : getDomain startUrl = ""
    · rw [if_pos hbd] at hout
      exact Except.noConfusion hout
    · rw [if_neg hbd] at hout
      injection hout with hout
      subst hout
      rfl
  · intro fetch sink startUrl maxDepth out hout
    unfold executeConvex at hout
    by_cases hbd : getDomain startUrl = ""
    · rw [if_pos hbd] at hout
      exact Except.noConfusion hout
    · rw [if_neg hbd] at hout
      injection hout with hout
      subst hout
      rfl

/-- Witness for C10: a crawl whose start fetch times out immediately (so
the traversal never goes past depth 0) still reports the requested depth 4
in both variants. -/
theorem claim_C10_witness :
    (⟨[], [⟨"https://example.com/",
            "Navigation timeout of 30000 ms exceeded"⟩],
      ⟨0, 1, 4⟩⟩ : CrawlOutput).summary.crawlDepth = 4 ∧
    (⟨[⟨"https://example.com/",
        "Navigation timeout of 30000 ms exceeded"⟩],
      ⟨1, 1, 4⟩⟩ : ConvexOutput).summary.crawlDepth = 4 :=
  ⟨claim_C10.1 fetchTimeout "https://example.com/" 4 _
    (execute_start_fetch_error (u := urlExample) 4 (by decide) (by decide)
      rfl),
   claim_C10.2 fetchTimeout sinkOk "https://example.com/" 4 _
    (executeConvex_start_fetch_error (u := urlExample) 4 (by decide)
      (by decide) rfl)⟩

/-! ## Claim C4 -/

/-- Claim C4, as stated, is false: processing the target `not a url` (whose
normalization fails) leaves the state unchanged — in particular NO parse
error is appended to the error list, contrary to the claimed `Failed` with a
parse error. -/
theorem claim_C4_counterexample :
    crawlPages fetchTimeout "example.com" 1 ["not a url"] 1 ⟨[], [], []⟩ =
      ⟨[], [], []⟩ ∧
    parseURL "not a url" = none ∧
    (⟨[], [], []⟩ : CrawlState).errors = [] := by
  refine ⟨?_, by decide, rfl⟩
  rw [crawlPages_cons, crawlPage1_noparse (by decide), crawlPages_nil]

/-- Claim C4 (amended): a CrawlTarget whose url fails normalization is
abandoned silently — the throw of `new URL(url)` happens before the `try`
block, the rejection is swallowed when the sibling batch settles, the state
(error list included) is untouched and no further action is taken on the
target.  No per-target failure escapes the crawl invocation: the invocation
hard-fails exactly when the start URL yields no domain, and otherwise
always returns a summary. -/
theorem claim_C4 :
    (∀ (fetch : String → Except String Html) (baseDomain : String)
       (maxDepth : Nat) (url : String) (currentDepth : Nat) (st : CrawlState),
       parseURL url = none →
       crawlPage1 fetch baseDomain maxDepth url currentDepth st = st) ∧
    (∀ (fetch : String → Except String Html) (startUrl : String)
       (maxDepth : Nat),
       getDomain startUrl = "" →
       execute fetch startUrl maxDepth = .error "Invalid start URL provided") ∧
    (∀ (fetch : String → Except String Html) (startUrl : String)
       (maxDepth : Nat),
       getDomain startUrl ≠ "" →
       ∃ out, execute fetch startUrl maxDepth = .ok out) := by
  refine ⟨?_, ?_, ?_⟩
  · intro fetch baseDomain maxDepth url currentDepth st hparse
    exact crawlPage1_noparse hparse
  · intro fetch startUrl maxDepth hbd
    unfold execute
    rw [if_pos hbd]
  · intro fetch startUrl maxDepth hbd
    unfold execute
    rw [if_neg hbd]
    exact ⟨_, rfl⟩

/-- Witness for C4 at concrete inputs: an unparsable target is dropped
silently, an unparsable start URL is the hard failure, a valid start URL
always yields a summary. -/
theorem claim_C4_witness :
    crawlPage1 fetchTimeout "example.com" 2 "not a url" 1 ⟨[], [], []⟩ =
      ⟨[], [], []⟩ ∧
    execute fetchTimeout "not a url" 2 =
      .error "Invalid start URL provided" ∧
    ∃ out, execute fetchTimeout "https://example.com/" 2 = .ok out :=
  ⟨claim_C4.1 fetchTimeout "example.com" 2 "not a url" 1 ⟨[], [], []⟩
    (by decide),
   claim_C4.2.1 fetchTimeout "not a url" 2 (by decide),
   claim_C4.2.2 fetchTimeout "https://example.com/" 2 (by decide)⟩

/-! ## Claim C8 -/

/-- Claim C8: a crawl with `maxDepth = 0` commits only the normalized start
URL to the visited set (no other URL is ever fetched), produces at most one
PageRecord, and produces exactly that one record when the start fetch
succeeds with non-empty cleaned text. -/
theorem claim_C8 (fetch : String → Except String Html) (startUrl : String)
    (u : URLRec) (hparse : parseURL startUrl = some u) :
    (crawlPages fetch (getDomain startUrl) 0 [startUrl] 0
      ⟨[], [], []⟩).visited = [serializeURL u] ∧
    (crawlPages fetch (getDomain startUrl) 0 [startUrl] 0
      ⟨[], [], []⟩).results.length ≤ 1 ∧
    (∀ html, fetch (serializeURL u) = .ok html →
      (cleanText html).length > 0 →
      (crawlPages fetch (getDomain startUrl) 0 [startUrl] 0
        ⟨[], [], []⟩).results = [⟨serializeURL u, cleanText html⟩]) := by
  rw [crawlPages_cons]
  cases hf : fetch (serializeURL u) with
  | error msg =>
    rw [crawlPage1_fetch_error hparse (getDomain_serialize hparse) (by simp)
      (by omega) hf, crawlPages_nil]
    refine ⟨rfl, by simp, ?_⟩
    intro html hok
    exact Except.noConfusion hok
  | ok html0 =>
    rw [crawlPage1_fetch_ok_leaf hparse (getDomain_serialize hparse)
      (by simp) (by omega) hf (by omega), crawlPages_nil]
    by_cases htext : (cleanText html0).length > 0
    · rw [if_pos htext]
      refine ⟨rfl, by simp, ?_⟩
      intro html hok _
      injection hok with hok
      subst hok
      rfl
    · rw [if_neg htext]
      refine ⟨rfl, by simp, ?_⟩
      intro html hok htext2
      injection hok with hok
      subst hok
      exact absurd htext2 htext

/-- Witness for C8: a depth-0 crawl of `https://example.com/` whose only
fetch succeeds with body text `root page`. -/
theorem claim_C8_witness :
    (crawlPages (fun url => if url = "https://example.com/" then
        .ok (.text "root page") else .error "timeout")
      (getDomain "https://example.com/") 0 ["https://example.com/"] 0
      ⟨[], [], []⟩).visited = ["https://example.com/"] ∧
    (crawlPages (fun url => if url = "https://example.com/" then
        .ok (.text "root page") else .error "timeout")
      (getDomain "https://example.com/") 0 ["https://example.com/"] 0
      ⟨[], [], []⟩).results.length ≤ 1 ∧
    (crawlPages (fun url => if url = "https://example.com/" then
        .ok (.text "root page") else .error "timeout")
      (getDomain "https://example.com/") 0 ["https://example.com/"] 0
      ⟨[], [], []⟩).results = [⟨"https://example.com/", "root page"⟩] := by
  have h := claim_C8 (fun url => if url = "https://example.com/" then
      .ok (.text "root page") else .error "timeout")
    "https://example.com/" urlExample (by decide)
  exact ⟨h.1, h.2.1, h.2.2 (.text "root page") rfl (by decide)⟩

/-! ## Claim C6 -/

/-- Claim C6: every URL committed to the visited set of a crawl invocation
has `getDomain` equal to the base domain computed from the start URL (exact
string equality of the lowercased, `www.`-stripped hostname), and a target
whose depth exceeds `maxDepth` never commits anything — the traversal at a
depth beyond the bound is the identity on the state.  Since the source
fetches a URL only directly after inserting it into the visited set, a URL
of a different domain is never fetched. -/
theorem claim_C6 :
    (∀ (fetch : String → Except String Html) (startUrl : String)
       (maxDepth : Nat),
       ∀ v ∈ (crawlPages fetch (getDomain startUrl) maxDepth [startUrl] 0
         ⟨[], [], []⟩).visited, getDomain v = getDomain startUrl) ∧
    (∀ (fetch : String → Except String Html) (baseDomain : String)
       (maxDepth : Nat) (urls : List String) (currentDepth : Nat)
       (st : CrawlState), currentDepth > maxDepth →
       crawlPages fetch baseDomain maxDepth urls currentDepth st = st) := by
  constructor
  · intro fetch startUrl maxDepth
    exact crawlPages_preserve fetch (getDomain startUrl) maxDepth
      (fun st => ∀ v ∈ st.visited, getDomain v = getDomain startUrl)
      (fun st u msg hu hdom hP => by
        intro v hv
        rcases List.mem_cons.1 hv with rfl | hv
        · exact hdom
        · exact hP v hv)
      (fun st u t hu hdom hP => by
        intro v hv
        rcases List.mem_cons.1 hv with rfl | hv
        · exact hdom
        · exact hP v hv)
      (fun st u hu hdom hP => by
        intro v hv
        rcases List.mem_cons.1 hv with rfl | hv
        · exact hdom
        · exact hP v hv)
      (maxDepth + 1) 0 (by omega) [startUrl] ⟨[], [], []⟩ (by simp)
  · intro fetch baseDomain maxDepth urls currentDepth st hdeep
    exact crawlPages_high fetch baseDomain maxDepth urls hdeep st

/-- Witness for C6: the timed-out crawl of `https://example.com/` has
exactly that URL in its visited set, in scope of its own domain; and a
traversal entered at depth 3 with `maxDepth = 2` changes nothing. -/
theorem claim_C6_witness :
    getDomain "https://example.com/" = getDomain "https://example.com/" ∧
    crawlPages fetchTimeout "example.com" 2 ["https://example.com/"] 3
      ⟨[], [], []⟩ = ⟨[], [], []⟩ := by
  constructor
  · apply claim_C6.1 fetchTimeout "https://example.com/" 1 "https://example.com/"
    have hbd : getDomain "https://example.com/" = "example.com" := by decide
    rw [hbd, crawlPages_cons,
      crawlPage1_fetch_error (u := urlExample)
        (by decide) (by decide) (by simp) (by omega)
        (rfl : fetchTimeout (serializeURL urlExample) =
          Except.error "Navigation timeout of 30000 ms exceeded"),
      crawlPages_nil]
    simp only [List.mem_cons]
    left
    decide
  · exact claim_C6.2 fetchTimeout "example.com" 2 ["https://example.com/"] 3
      ⟨[], [], []⟩ (by omega)

/-! ## Claim C7 -/

theorem nodup_append_fresh {A B : List String} {u : String}
    (hnd : (A ++ B).Nodup) (hu : u ∉ A ++ B) : (A ++ (B ++ [u])).Nodup := by
  rw [← List.append_assoc]
  rw [List.nodup_append]
  refine ⟨hnd, List.nodup_singleton u, ?_⟩
  intro v hv hvu
  rw [List.mem_singleton] at hvu
  subst hvu
  exact hu hv

theorem nodup_insert_mid {A B : List String} {u : String}
    (hnd : (A ++ B).Nodup) (hu : u ∉ A ++ B) : ((A ++ [u]) ++ B).Nodup := by
  have hperm : ((A ++ [u]) ++ B).Perm (A ++ (B ++ [u])) := by
    rw [List.append_assoc]
    exact List.Perm.append_left A (List.perm_append_comm)
  exact (nodup_append_fresh hnd hu).perm hperm.symm

/-- Claim C7: in the sequential (race-free) semantics, no URL appears twice
across the PageRecords and the CrawlErrors of a single in-memory crawl
invocation taken together.  The documented same-batch concurrent-discovery
race is outside this model, as the claim itself allows. -/
theorem claim_C7 (fetch : String → Except String Html) (startUrl : String)
    (maxDepth : Nat) (out : CrawlOutput)
    (hout : execute fetch startUrl maxDepth = .ok out) :
    (out.results.map CrawlResult.url ++ out.errors.map CrawlError.url).Nodup := by
  unfold execute at hout
  by_cases hbd : getDomain startUrl = ""
  · rw [if_pos hbd] at hout
    exact Except.noConfusion hout
  · rw [if_neg hbd] at hout
    injection hout with hout
    subst hout
    have hinv := crawlPages_preserve fetch (getDomain startUrl) maxDepth
      (fun st => (st.results.map CrawlResult.url ++
          st.errors.map CrawlError.url).Nodup ∧
        ∀ v ∈ st.results.map CrawlResult.url ++ st.errors.map CrawlError.url,
          v ∈ st.visited)
      (fun st u msg hu hdom hP => by
        refine ⟨?_, ?_⟩
        · simp only [List.map_append, List.map_cons, List.map_nil]
          exact nodup_append_fresh hP.1 (fun hv => hu (hP.2 u hv))
        · intro v hv
          simp only [List.map_append, List.map_cons, List.map_nil] at hv
          rw [← List.append_assoc] at hv
          rcases List.mem_append.1 hv with hv | hv
          · exact List.mem_cons_of_mem u (hP.2 v hv)
          · rw [List.mem_singleton] at hv
            subst hv
            exact List.mem_cons_self v st.visited)
      (fun st u t hu hdom hP => by
        refine ⟨?_, ?_⟩
        · simp only [List.map_append, List.map_cons, List.map_nil]
          exact nodup_insert_mid hP.1 (fun hv => hu (hP.2 u hv))
        · intro v hv
          simp only [List.map_append, List.map_cons, List.map_nil] at hv
          rcases List.mem_append.1 hv with hv | hv
          · rcases List.mem_append.1 hv with hv | hv
            · exact List.mem_cons_of_mem u
                (hP.2 v (List.mem_append.2 (Or.inl hv)))
            · rw [List.mem_singleton] at hv
              subst hv
              exact List.mem_cons_self v st.visited
          · exact List.mem_cons_of_mem u
              (hP.2 v (List.mem_append.2 (Or.inr hv))))
      (fun st u hu hdom hP =>
        ⟨hP.1, fun v hv => List.mem_cons_of_mem u (hP.2 v hv)⟩)
      (maxDepth + 1) 0 (by omega) [startUrl] ⟨[], [], []⟩ (by simp)
    exact hinv.1

/-- Witness for C7: the timed-out crawl of `https://example.com/` produces
the single-error output, whose URL list is duplicate-free. -/
theorem claim_C7_witness :
    ((⟨[], [⟨"https://example.com/",
             "Navigation timeout of 30000 ms exceeded"⟩],
       ⟨0, 1, 2⟩⟩ : CrawlOutput).results.map CrawlResult.url ++
     (⟨[], [⟨"https://example.com/",
             "Navigation timeout of 30000 ms exceeded"⟩],
       ⟨0, 1, 2⟩⟩ : CrawlOutput).errors.map CrawlError.url).Nodup :=
  claim_C7 fetchTimeout "https://example.com/" 2 _
    (execute_start_fetch_error (u := urlExample) 2 (by decide) (by decide) rfl)

/-! ## Claim C5 -/

theorem dedupFirst_subset (seen : List String) (l : List String) :
    ∀ x ∈ dedupFirst seen l, x ∈ l := by
  induction l generalizing seen with
  | nil => simp [dedupFirst]
  | cons a rest ih =>
    intro x hx
    unfold dedupFirst at hx
    by_cases ha : a ∈ seen
    · rw [if_pos ha] at hx
      exact List.mem_cons_of_mem a (ih seen x hx)
    · rw [if_neg ha] at hx
      rcases List.mem_cons.1 hx with rfl | hx
      · exact List.mem_cons_self x rest
      · exact List.mem_cons_of_mem a (ih (a :: seen) x hx)

theorem asString_toList (s : String) : (s.toList).asString = s := rfl

theorem stripFrag_eq_self {s : String} (h : '#' ∉ s.toList) :
    stripFrag s = s := by
  unfold stripFrag
  rw [splitFirst_of_not_mem '#' h]
  exact asString_toList s

/-- Every link produced by `extractLinks` is fragment-free: the source
keeps only `url.href.split(\x27#\x27)[0]`. -/
theorem extractLinks_no_hash (h : Html) (baseUrl : String) :
    ∀ link ∈ extractLinks h baseUrl, '#' ∉ link.toList := by
  intro link hlink
  have hmem := dedupFirst_subset [] _ link hlink
  rcases List.mem_filterMap.1 hmem with ⟨href, _, hf⟩
  cases hres : resolveURL href baseUrl with
  | none =>
    simp only [hres] at hf
    exact Option.noConfusion hf
  | some u =>
    simp only [hres] at hf
    by_cases hsch : u.scheme = "http".toList ∨ u.scheme = "https".toList
    · rw [if_pos hsch] at hf
      injection hf with hf
      subst hf
      exact stripFrag_no_hash _
    · rw [if_neg hsch] at hf
      exact Option.noConfusion hf

/-- Claim C5 (amended): links discovered by `extractLinks` are
fragment-free, so two discovered links that differ only by fragment are the
SAME string and share one VisitedSet entry; but the dedup key of a target
in `crawlPage` is `new URL(url).href`, which PRESERVES a fragment, so a
start URL carrying a fragment never equals any discovered link and occupies
its own VisitedSet entry — the same resource can be visited twice. -/
theorem claim_C5 :
    (∀ (h : Html) (baseUrl : String), ∀ link ∈ extractLinks h baseUrl,
      '#' ∉ link.toList) ∧
    (∀ (h : Html) (baseUrl : String), ∀ l1 ∈ extractLinks h baseUrl,
      ∀ l2 ∈ extractLinks h baseUrl, stripFrag l1 = stripFrag l2 → l1 = l2) ∧
    (∀ (u : URLRec) (f : List Char), u.fragment = some f →
      ∀ (h : Html) (baseUrl : String), ∀ link ∈ extractLinks h baseUrl,
        serializeURL u ≠ link) := by
  refine ⟨extractLinks_no_hash, ?_, ?_⟩
  · intro h baseUrl l1 h1 l2 h2 heq
    rw [stripFrag_eq_self (extractLinks_no_hash h baseUrl l1 h1),
      stripFrag_eq_self (extractLinks_no_hash h baseUrl l2 h2)] at heq
    exact heq
  · intro u f hf h baseUrl link hlink heq
    have hhash : '#' ∈ (serializeURL u).toList := by
      unfold serializeURL
      rw [toList_asString]
      unfold serializeChars
      simp only [hf]
      simp
    rw [heq] at hhash
    exact extractLinks_no_hash h baseUrl link hlink hhash

/-- The parsed form of `https://example.com/#top`: the platform href keeps
the fragment. -/
def urlExampleTop : URLRec :=
  ⟨"https".toList, "example.com".toList, "/".toList, some "top".toList⟩

/-- A page holding one anchor to the fragment-free root. -/
def pageWithRootLink : Html :=
  .elem "div" [] [.elem "a" [("href", "https://example.com/")] [.text "link"]]

/-- A fetch oracle serving `https://example.com/#top` (a page linking to
the fragment-free root) and `https://example.com/`. -/
def fetchFrag : String → Except String Html := fun url =>
  if url = "https://example.com/#top" then .ok pageWithRootLink
  else if url = "https://example.com/" then .ok (.text "root page")
  else .error "timeout"

/-- Claim C5, as stated, is false for a start URL carrying a fragment: the
crawl started at `https://example.com/#top` visits BOTH
`https://example.com/` and `https://example.com/#top`, two VisitedSet
entries that differ only by fragment — the dedup key of `crawlPage` (line
57, `new URL(url).href`) does not strip the fragment. -/
theorem claim_C5_counterexample :
    (crawlPages fetchFrag (getDomain "https://example.com/#top") 1
      ["https://example.com/#top"] 0 ⟨[], [], []⟩).visited =
      ["https://example.com/", "https://example.com/#top"] ∧
    stripFrag "https://example.com/#top" = stripFrag "https://example.com/" ∧
    "https://example.com/#top" ≠ "https://example.com/" := by
  refine ⟨?_, by decide, by decide⟩
  have hbd : getDomain "https://example.com/#top" = "example.com" := by decide
  rw [hbd, crawlPages_cons,
    crawlPage1_fetch_ok_deep (u := urlExampleTop)
      (by decide) (by decide) (by simp)
      (rfl : fetchFrag (serializeURL urlExampleTop) = Except.ok pageWithRootLink)
      (by omega)]
  rw [crawlPages_nil]
  rw [show extractLinks pageWithRootLink (serializeURL urlExampleTop) =
      ["https://example.com/"] from by decide]
  rw [if_pos (by decide : (cleanText pageWithRootLink).length > 0)]
  rw [crawlPages_cons,
    crawlPage1_fetch_ok_leaf (u := urlExample)
      (by decide) (by decide) (by decide) (by omega)
      (rfl : fetchFrag (serializeURL urlExample) = Except.ok (Html.text "root page"))
      (by omega)]
  rw [crawlPages_nil]
  rw [if_pos (by decide : (cleanText (.text "root page")).length > 0)]
  rfl

/-- Witness for C5 at the page linking to the fragment-free root. -/
theorem claim_C5_witness :
    '#' ∉ "https://example.com/".toList ∧
    "https://example.com/" = "https://example.com/" ∧
    serializeURL urlExampleTop ≠ "https://example.com/" := by
  have hmem : "https://example.com/" ∈
      extractLinks pageWithRootLink "https://example.com/#top" := by decide
  exact ⟨claim_C5.1 pageWithRootLink "https://example.com/#top" _ hmem,
    claim_C5.2.1 pageWithRootLink "https://example.com/#top" _ hmem _ hmem
      rfl,
    claim_C5.2.2 urlExampleTop "top".toList rfl pageWithRootLink
      "https://example.com/#top" _ hmem⟩

/-! ## Claim C2 -/

theorem findIdx_append_of_none (p : FanEvent → Bool) (l1 l2 : List FanEvent)
    (h : ∀ x ∈ l1, p x = false) :
    (l1 ++ l2).findIdx p = l1.length + l2.findIdx p := by
  induction l1 with
  | nil => simp
  | cons a rest ih =>
    rw [List.cons_append, List.findIdx_cons]
    rw [h a (List.mem_cons_self a rest)]
    simp only [cond_false, List.length_cons]
    rw [ih (fun x hx => h x (List.mem_cons_of_mem a hx))]
    omega

theorem findIdx_begun_range (n : Nat) :
    ∀ k i, i < n →
      ((List.range' k n).map FanEvent.begun).findIdx
        (· = FanEvent.begun (k + i)) = i := by
  induction n with
  | zero => omega
  | succ n ih =>
    intro k i hi
    rw [List.range'_succ, List.map_cons, List.findIdx_cons]
    cases i with
    | zero => simp
    | succ j =>
      have hne : ¬ (FanEvent.begun k = FanEvent.begun (k + (j + 1))) := by
        simp only [FanEvent.begun.injEq]
        omega
      rw [decide_eq_false hne]
      simp only [cond_false]
      have := ih (k + 1) j (by omega)
      rw [show k + (j + 1) = (k + 1) + j by omega]
      rw [this]

theorem findIdx_append_of_lt (p : FanEvent → Bool) (l1 l2 : List FanEvent)
    (h : l1.findIdx p < l1.length) :
    (l1 ++ l2).findIdx p = l1.findIdx p := by
  induction l1 with
  | nil => simp at h
  | cons a rest ih =>
    rw [List.cons_append, List.findIdx_cons, List.findIdx_cons]
    cases hp : p a with
    | true => simp
    | false =>
      simp only [cond_false]
      rw [List.findIdx_cons, hp] at h
      simp only [cond_false, List.length_cons] at h
      rw [ih (by omega)]

/-- In the timeline of a fan-out point, sibling `i` begins at position `i`:
all begin events happen during the synchronous `.map`. -/
theorem eventIdx_begun {n i : Nat} (settleOrder : List Nat) (hi : i < n) :
    eventIdx (fanOutTrace n settleOrder) (.begun i) = i := by
  unfold eventIdx fanOutTrace
  have h1 : ((List.range n).map FanEvent.begun).findIdx
      (· = FanEvent.begun i) = i := by
    rw [List.range_eq_range']
    have := findIdx_begun_range n 0 i hi
    rw [Nat.zero_add] at this
    exact this
  rw [findIdx_append_of_lt _ _ _
    (by rw [h1, List.length_map, List.length_range]; exact hi), h1]

/-- Settle events only appear after all `n` begin events. -/
theorem eventIdx_settled_ge {n : Nat} (settleOrder : List Nat) (j : Nat) :
    n ≤ eventIdx (fanOutTrace n settleOrder) (.settled j) := by
  unfold eventIdx fanOutTrace
  rw [findIdx_append_of_none _ _ _ (by
    intro x hx
    rcases List.mem_map.1 hx with ⟨a, _, rfl⟩
    simp)]
  rw [List.length_map, List.length_range]
  omega

theorem chunk3_flatten {α : Type} : ∀ l : List α, (chunk3 l).flatten = l
  | [] => rfl
  | [_] => rfl
  | [_, _] => rfl
  | a :: b :: c :: rest => by
    simp only [chunk3, List.flatten_cons, List.cons_append, List.nil_append]
    rw [chunk3_flatten rest]

theorem chunk3_length_le {α : Type} : ∀ l : List α, ∀ c ∈ chunk3 l,
    c.length ≤ 3
  | [] => by simp [chunk3]
  | [a] => by simp [chunk3]
  | [a, b] => by simp [chunk3]
  | a :: b :: c :: rest => by
    intro d hd
    simp only [chunk3, List.mem_cons] at hd
    rcases hd with rfl | hd
    · simp
    · exact chunk3_length_le rest d hd

/-- Claim C2, as stated, is false: at a fan-out point with four sibling
links, the fourth sibling (batch 2 under the slice loop) begins — during
the synchronous `.map` that creates the promises — before any member of
batch 1 settles, for example when the fetches settle in array order. -/
theorem claim_C2_counterexample :
    ¬ batchSequential 4 (fanOutTrace 4 [0, 1, 2, 3]) := by decide

/-- Claim C2 (amended): `links.map(link => crawlPage(...))` starts every
sibling traversal at once, so in the fan-out timeline every begin event
precedes every settle event — per fan-out point ALL discovered siblings may
be in flight, not at most 3; the slice loop only AWAITS settlement in
successive groups of at most three, in array order. -/
theorem claim_C2 :
    (∀ (n : Nat) (settleOrder : List Nat) (i : Nat), i < n → ∀ j : Nat,
      eventIdx (fanOutTrace n settleOrder) (.begun i) <
        eventIdx (fanOutTrace n settleOrder) (.settled j)) ∧
    (∀ (l : List Nat), (chunk3 l).flatten = l) ∧
    (∀ (l : List Nat), ∀ c ∈ chunk3 l, c.length ≤ 3) := by
  refine ⟨?_, fun l => chunk3_flatten l, fun l => chunk3_length_le l⟩
  intro n settleOrder i hi j
  calc eventIdx (fanOutTrace n settleOrder) (.begun i) = i :=
        eventIdx_begun settleOrder hi
    _ < n := hi
    _ ≤ eventIdx (fanOutTrace n settleOrder) (.settled j) :=
        eventIdx_settled_ge settleOrder j

/-- Witness for C2 at the four-sibling fan-out point settling in order. -/
theorem claim_C2_witness :
    eventIdx (fanOutTrace 4 [0, 1, 2, 3]) (.begun 3) <
      eventIdx (fanOutTrace 4 [0, 1, 2, 3]) (.settled 0) ∧
    (chunk3 [0, 1, 2, 3]).flatten = [0, 1, 2, 3] ∧
    ([3] : List Nat).length ≤ 3 :=
  ⟨claim_C2.1 4 [0, 1, 2, 3] 3 (by decide) 0,
   claim_C2.2.1 [0, 1, 2, 3],
   claim_C2.2.2 [0, 1, 2, 3] [3] (by decide)⟩

/-! ## Claim C9 -/

/-- No two adjacent whitespace characters. -/
def NoAdjWs (l : List Char) : Prop :=
  l.Chain' (fun a b => ¬ (isJsWs a ∧ isJsWs b))

instance (l : List Char) : Decidable (NoAdjWs l) := by
  unfold NoAdjWs
  infer_instance

theorem head_collapseAfterRun {l : List Char} {c : Char}
    (h : (collapseAfterRun l).head? = some c) : isJsWs c = false := by
  induction l with
  | nil => simp [collapseAfterRun] at h
  | cons a rest ih =>
    unfold collapseAfterRun at h
    by_cases ha : isJsWs a
    · rw [if_pos (by simp [ha])] at h
      exact ih h
    · rw [if_neg (by simp [ha])] at h
      rw [List.head?_cons, Option.some_inj] at h
      subst h
      simp only [Bool.not_eq_true] at ha
      exact ha

theorem head_collapseWs {d : Char} {r : List Char} {c0 : Char}
    (h : (collapseWs (d :: r)).head? = some c0) (hws : isJsWs c0) :
    isJsWs d := by
  unfold collapseWs at h
  cases r with
  | nil =>
    rw [List.head?_cons, Option.some_inj] at h
    subst h
    exact hws
  | cons e r2 =>
    dsimp only at h
    by_cases hde : isJsWs d ∧ isJsWs e
    · exact hde.1
    · rw [if_neg (by simpa using hde)] at h
      rw [List.head?_cons, Option.some_inj] at h
      subst h
      exact hws

theorem collapse_noadj :
    ∀ n : Nat, ∀ l : List Char, l.length ≤ n →
      NoAdjWs (collapseWs l) ∧ NoAdjWs (collapseAfterRun l) := by
  intro n
  induction n with
  | zero =>
    intro l hl
    have : l = [] := List.length_eq_zero.1 (Nat.le_zero.1 hl)
    subst this
    exact ⟨List.chain'_nil, List.chain'_nil⟩
  | succ n ih =>
    intro l hl
    constructor
    · match l with
      | [] => exact List.chain'_nil
      | [c] => exact List.chain'_singleton c
      | c :: d :: rest =>
        unfold collapseWs
        dsimp only
        by_cases hcd : isJsWs c ∧ isJsWs d
        · rw [if_pos (by simp [hcd.1, hcd.2])]
          unfold NoAdjWs
          rw [List.chain'_cons']
          refine ⟨?_, (ih (d :: rest) (by simpa using hl)).2⟩
          intro y hy hcy
          rw [head_collapseAfterRun hy] at hcy
          exact Bool.noConfusion hcy.2
        · rw [if_neg (by simpa using hcd)]
          unfold NoAdjWs
          rw [List.chain'_cons']
          refine ⟨?_, (ih (d :: rest) (by simpa using hl)).1⟩
          intro y hy hcy
          exact hcd ⟨hcy.1, head_collapseWs hy hcy.2⟩
    · match l with
      | [] => exact List.chain'_nil
      | c :: rest =>
        unfold collapseAfterRun
        by_cases hc : isJsWs c
        · rw [if_pos (by simp [hc])]
          exact (ih rest (by simpa using hl)).2
        · rw [if_neg (by simp [hc])]
          cases rest with
          | nil => exact List.chain'_singleton c
          | cons d rest2 =>
            unfold NoAdjWs
            rw [List.chain'_cons']
            refine ⟨?_, (ih (d :: rest2) (by simpa using hl)).1⟩
            intro y hy hcy
            exact hc hcy.1

theorem noadj_suffix {l l2 : List Char} (hs : l2 <:+ l) (h : NoAdjWs l) :
    NoAdjWs l2 := by
  obtain ⟨t, rfl⟩ := hs
  exact (List.chain'_append.1 h).2.1

theorem noadj_reverse {l : List Char} (h : NoAdjWs l) : NoAdjWs l.reverse := by
  unfold NoAdjWs
  rw [List.chain'_reverse]
  exact h.imp fun a b hab hba => hab ⟨hba.2, hba.1⟩

theorem noadj_trimWs {l : List Char} (h : NoAdjWs l) : NoAdjWs (trimWs l) := by
  unfold trimWs
  apply noadj_reverse
  apply noadj_suffix (List.dropWhile_suffix _)
  apply noadj_reverse
  exact noadj_suffix (List.dropWhile_suffix _) h

theorem trimWs_last {l : List Char} {c : Char}
    (h : (trimWs l).getLast? = some c) : isJsWs c = false := by
  unfold trimWs at h
  rw [List.getLast?_reverse] at h
  have := List.head?_dropWhile_not isJsWs (l.dropWhile isJsWs).reverse
  rw [h] at this
  exact this

theorem trimWs_head {l : List Char} {c : Char}
    (h : (trimWs l).head? = some c) : isJsWs c = false := by
  unfold trimWs at h
  rw [List.head?_reverse] at h
  obtain ⟨t, ht⟩ := List.dropWhile_suffix
    (l := (l.dropWhile isJsWs).reverse) isJsWs
  have hne : ((l.dropWhile isJsWs).reverse.dropWhile isJsWs) ≠ [] := by
    intro hnil
    rw [hnil] at h
    exact Option.noConfusion h
  have hlast : ((l.dropWhile isJsWs).reverse.dropWhile isJsWs).getLast? =
      ((l.dropWhile isJsWs).reverse).getLast? := by
    calc ((l.dropWhile isJsWs).reverse.dropWhile isJsWs).getLast?
        = (t ++ (l.dropWhile isJsWs).reverse.dropWhile isJsWs).getLast? :=
          (List.getLast?_append_of_ne_nil t hne).symm
      _ = ((l.dropWhile isJsWs).reverse).getLast? := by rw [ht]
  rw [hlast, List.getLast?_reverse] at h
  have := List.head?_dropWhile_not isJsWs l
  rw [h] at this
  exact this

/-- Claim C9: `cleanText` strips the boilerplate elements of its selector
(text below `script`, `style`, `noscript`, `svg`, `header`, `footer`, `nav`
contributes nothing), and its output — the concatenated visible text with
whitespace runs collapsed by `replace(/\s\s+/g, \x27 \x27)` and then
trimmed — never contains two adjacent whitespace characters and has no
leading or trailing whitespace.  Being a pure function of the document, it
is deterministic. -/
theorem claim_C9 (h : Html) :
    NoAdjWs (cleanText h).toList ∧
    (∀ c, (cleanText h).toList.head? = some c → isJsWs c = false) ∧
    (∀ c, (cleanText h).toList.getLast? = some c → isJsWs c = false) ∧
    (∀ tag attrs children, tag ∈ removedTags →
      cleanText (.elem tag attrs children) = "") := by
  have hlist : (cleanText h).toList =
      trimWs (collapseWs (textOfList (pruneList [h]))) := rfl
  refine ⟨?_, ?_, ?_, ?_⟩
  · rw [hlist]
    exact noadj_trimWs
      (collapse_noadj (textOfList (pruneList [h])).length _ (Nat.le_refl _)).1
  · intro c hc
    rw [hlist] at hc
    exact trimWs_head hc
  · intro c hc
    rw [hlist] at hc
    exact trimWs_last hc
  · intro tag attrs children htag
    have hp : pruneHtml (.elem tag attrs children) = none := by
      unfold pruneHtml
      rw [if_pos htag]
    have hpl : pruneList [Html.elem tag attrs children] = [] := by
      unfold pruneList
      rw [hp]
      rfl
    unfold cleanText
    rw [hpl]
    rfl

/-- Witness for C9 on the concrete page used elsewhere: the cleaned text is
`link`, whose first and last characters are not whitespace, and a script
element cleans to the empty string. -/
theorem claim_C9_witness :
    NoAdjWs (cleanText pageWithRootLink).toList ∧
    isJsWs 'l' = false ∧
    isJsWs 'k' = false ∧
    cleanText (.elem "script" [] [.text "var x = 1;"]) = "" :=
  ⟨(claim_C9 pageWithRootLink).1,
   (claim_C9 pageWithRootLink).2.1 'l' (by decide),
   (claim_C9 pageWithRootLink).2.2.1 'k' (by decide),
   (claim_C9 pageWithRootLink).2.2.2 "script" [] [.text "var x = 1;"]
     (by decide)⟩
